import Mathlib

/-!
Shallow embedding of `fms/distributed/strategy.py` (foundation-model-stack,
distributed strategy module) in Lean 4, together with theorems settling the
spec claims about layer placement, the weight pattern classifier, the device
mover and the tensor-parallel strategy.
-/

namespace FMS

/-- Parallelization kinds appearing in a layer plan, embedding the
`ColwiseParallel()`, `RowwiseParallel()` and `SequenceParallel()` values
assigned by `generate_layer_plan`. -/
inductive ParallelKind where
  | colwise
  | rowwise
  | seqParallel
deriving DecidableEq, Repr

/-- The torch module classes `generate_layer_plan` discriminates on via
`isinstance`: `nn.Linear`, `nn.LayerNorm`, `nn.Dropout`,
`LayerNormParameterized`, and anything else. -/
inductive ModuleKind where
  | linear
  | layerNorm
  | dropout
  | layerNormParameterized
  | other
deriving DecidableEq, Repr

/-- Embeds `isinstance(module, (nn.LayerNorm, nn.Dropout, LayerNormParameterized))`. -/
def isNormOrDropout : ModuleKind → Bool
  | .layerNorm => true
  | .dropout => true
  | .layerNormParameterized => true
  | _ => false

/-- A tensor-parallel plan: the Python dict `tp_plan`, modelled as an
insertion-ordered association list with unique keys. -/
abbrev Plan := List (String × ParallelKind)

/-- Python dict assignment `d[k] = v`: replace the value at an existing key in
place, otherwise append the new binding. -/
def dictSet (d : Plan) (k : String) (v : ParallelKind) : Plan :=
  if d.any (fun p => p.1 = k) then
    d.map (fun p => if p.1 = k then (k, v) else p)
  else
    d ++ [(k, v)]

/-- Python dict lookup `d[k]` (as an option). -/
def dictGet (d : Plan) (k : String) : Option ParallelKind :=
  (d.find? (fun p => p.1 = k)).map (fun p => p.2)

/-- `re.fullmatch` of the pattern `attn\.in_proj\.qkv_fused`: every regex
metacharacter is escaped, so it matches exactly the literal string. -/
def fullmatch_qkv_fused (s : String) : Bool := s == "attn.in_proj.qkv_fused"

/-- `re.fullmatch` of `attn\.in_proj\.(query|key|value)`: the alternation makes
it match exactly the three literal strings. -/
def fullmatch_qkv (s : String) : Bool :=
  s == "attn.in_proj.query" || s == "attn.in_proj.key" || s == "attn.in_proj.value"

/-- `re.fullmatch` of `ff_sub_layer\.wg1_fused`. -/
def fullmatch_wg1_fused (s : String) : Bool := s == "ff_sub_layer.wg1_fused"

/-- `re.fullmatch` of `ff_sub_layer\.w1`. -/
def fullmatch_w1 (s : String) : Bool := s == "ff_sub_layer.w1"

/-- `re.fullmatch` of `ff_sub_layer\.wg`. -/
def fullmatch_wg (s : String) : Bool := s == "ff_sub_layer.wg"

/-- `re.fullmatch` of `attn\.dense`. -/
def fullmatch_attn_dense (s : String) : Bool := s == "attn.dense"

/-- `re.fullmatch` of `ff_sub_layer\.w2`. -/
def fullmatch_w2 (s : String) : Bool := s == "ff_sub_layer.w2"

/-- The `colwise_patterns` list of `generate_layer_plan`, in source order. -/
def colwise_patterns : List (String → Bool) :=
  [fullmatch_qkv_fused, fullmatch_qkv, fullmatch_wg1_fused, fullmatch_w1, fullmatch_wg]

/-- The `rowwise_patterns` list of `generate_layer_plan`, in source order. -/
def rowwise_patterns : List (String → Bool) :=
  [fullmatch_attn_dense, fullmatch_w2]

/-- The inner `for pattern in patterns: if re.fullmatch(pattern, name):
tp_plan[name] = kind; break` loop of `generate_layer_plan`: scan the patterns
in order; at the first match record the binding and stop. -/
def scanPatterns (plan : Plan) (pats : List (String → Bool)) (name : String)
    (kind : ParallelKind) : Plan :=
  match pats with
  | [] => plan
  | p :: ps =>
    if p name then dictSet plan name kind else scanPatterns plan ps name kind

/-- One iteration of the `for name, module in block.named_modules()` loop of
`generate_layer_plan`: sequence-parallel marking of norm/dropout modules when
enabled, else — for linear modules — the column-wise scan followed by the
row-wise scan (the prints are diagnostics with no effect on the plan). -/
def generateLayerPlanStep (use_sequence_parallelism : Bool)
    (colPats rowPats : List (String → Bool)) (plan : Plan)
    (name : String) (kind : ModuleKind) : Plan :=
  if use_sequence_parallelism && isNormOrDropout kind then
    dictSet plan name .seqParallel
  else if kind = ModuleKind.linear then
    scanPatterns (scanPatterns plan colPats name .colwise) rowPats name .rowwise
  else
    plan

/-- `generate_layer_plan` generalized over the two pattern lists (the loop body
is uniform in them; the source fixes them to `colwise_patterns` and
`rowwise_patterns`). A block is its `named_modules()` listing: dotted names
with module classes. -/
def generate_layer_plan_gen (colPats rowPats : List (String → Bool))
    (block : List (String × ModuleKind)) (use_sequence_parallelism : Bool) : Plan :=
  block.foldl
    (fun plan nm => generateLayerPlanStep use_sequence_parallelism colPats rowPats plan nm.1 nm.2)
    []

/-- `generate_layer_plan(block, use_sequence_parallelism)` from the source:
builds `tp_plan` by walking the named sub-modules. -/
def generate_layer_plan (block : List (String × ModuleKind))
    (use_sequence_parallelism : Bool) : Plan :=
  generate_layer_plan_gen colwise_patterns rowwise_patterns block use_sequence_parallelism

/-- Whether some pattern in the list matches the name. -/
def matchesAny (pats : List (String → Bool)) (name : String) : Bool :=
  pats.any (fun p => p name)

/-- The value one loop iteration of `generate_layer_plan` ends up storing for
its own sub-module name (`none` when the iteration leaves the plan untouched
at that key): used to characterize the fold. -/
def classifyStep? (use_sequence_parallelism : Bool)
    (colPats rowPats : List (String → Bool)) (name : String) (kind : ModuleKind) :
    Option ParallelKind :=
  if use_sequence_parallelism && isNormOrDropout kind then some .seqParallel
  else if kind = ModuleKind.linear then
    if matchesAny rowPats name then some .rowwise
    else if matchesAny colPats name then some .colwise
    else none
  else none

lemma find?_map_replaceKey (d : Plan) (k x : String) (v : ParallelKind)
    (hx : x ≠ k) :
    (d.map (fun p => if p.1 = k then (k, v) else p)).find? (fun p => p.1 = x)
      = d.find? (fun p => p.1 = x) := by
  induction d with
  | nil => rfl
  | cons p rest ih =>
    by_cases hp : p.1 = k
    · have h1 : ¬ (k = x) := fun h => hx h.symm
      have h2 : ¬ (p.1 = x) := by rw [hp]; exact h1
      rw [List.map_cons, if_pos hp, List.find?_cons_of_neg _ (by simp [h1]),
        List.find?_cons_of_neg _ (by simp [h2]), ih]
    · by_cases h2 : p.1 = x
      · rw [List.map_cons, if_neg hp, List.find?_cons_of_pos _ (by simp [h2]),
          List.find?_cons_of_pos _ (by simp [h2])]
      · rw [List.map_cons, if_neg hp, List.find?_cons_of_neg _ (by simp [h2]),
          List.find?_cons_of_neg _ (by simp [h2]), ih]

lemma find?_map_replaceKey_self (d : Plan) (k : String) (v : ParallelKind)
    (h : d.any (fun p => p.1 = k) = true) :
    (d.map (fun p => if p.1 = k then (k, v) else p)).find? (fun p => p.1 = k)
      = some (k, v) := by
  induction d with
  | nil => simp at h
  | cons p rest ih =>
    by_cases hp : p.1 = k
    · rw [List.map_cons, if_pos hp, List.find?_cons_of_pos _ (by simp)]
    · have h3 : rest.any (fun q => q.1 = k) = true := by
        rcases List.any_eq_true.mp h with ⟨q, hq, hqk⟩
        have hqk2 : q.1 = k := of_decide_eq_true hqk
        rcases List.mem_cons.mp hq with h0 | h0
        · exact absurd (h0 ▸ hqk2) hp
        · exact List.any_eq_true.mpr ⟨q, h0, hqk⟩
      rw [List.map_cons, if_neg hp, List.find?_cons_of_neg _ (by simp [hp]),
        ih h3]

lemma dictGet_dictSet_self (d : Plan) (k : String) (v : ParallelKind) :
    dictGet (dictSet d k v) k = some v := by
  unfold dictGet dictSet
  by_cases h : d.any (fun p => p.1 = k)
  · simp only [h, if_true]
    rw [find?_map_replaceKey_self d k v h]
    rfl
  · simp only [h, Bool.false_eq_true, if_false, List.find?_append]
    have hnone : d.find? (fun p => p.1 = k) = none := by
      rw [List.find?_eq_none]
      intro p hp hpk
      exact absurd (List.any_eq_true.mpr ⟨p, hp, hpk⟩) h
    simp [hnone]

lemma dictGet_dictSet_other (d : Plan) (k x : String) (v : ParallelKind)
    (hx : x ≠ k) : dictGet (dictSet d k v) x = dictGet d x := by
  unfold dictGet dictSet
  by_cases h : d.any (fun p => p.1 = k)
  · simp only [h, if_true]
    rw [find?_map_replaceKey d k x v hx]
  · have h1 : ¬ (k = x) := fun h => hx h.symm
    simp [h, List.find?_append, h1]

lemma mem_keys_dictSet (d : Plan) (k x : String) (v : ParallelKind)
    (hx : x ∈ (dictSet d k v).map Prod.fst) :
    x = k ∨ x ∈ d.map Prod.fst := by
  unfold dictSet at hx
  by_cases h : d.any (fun p => p.1 = k)
  · simp only [h, if_true, List.map_map, List.mem_map] at hx
    rcases hx with ⟨p, hp, hpx⟩
    by_cases hpk : p.1 = k
    · left
      simpa [hpk] using hpx.symm
    · right
      simp only [Function.comp, hpk, if_neg, if_false] at hpx
      exact List.mem_map.mpr ⟨p, hp, hpx⟩
  · simp only [h, Bool.false_eq_true, if_false, List.map_append, List.mem_append,
      List.map_cons, List.map_nil, List.mem_singleton] at hx
    rcases hx with hx | hx
    · exact Or.inr hx
    · exact Or.inl hx

lemma scanPatterns_get_self (plan : Plan) (pats : List (String → Bool))
    (name : String) (kind : ParallelKind) :
    dictGet (scanPatterns plan pats name kind) name
      = if matchesAny pats name then some kind else dictGet plan name := by
  induction pats with
  | nil => simp [scanPatterns, matchesAny]
  | cons p ps ih =>
    by_cases hp : p name
    · simp [scanPatterns, matchesAny, hp, dictGet_dictSet_self]
    · simp only [scanPatterns, hp, Bool.false_eq_true, if_false, ih]
      simp [matchesAny, hp]

lemma scanPatterns_get_other (plan : Plan) (pats : List (String → Bool))
    (name x : String) (kind : ParallelKind) (hx : x ≠ name) :
    dictGet (scanPatterns plan pats name kind) x = dictGet plan x := by
  induction pats with
  | nil => rfl
  | cons p ps ih =>
    by_cases hp : p name
    · simp [scanPatterns, hp, dictGet_dictSet_other _ _ _ _ hx]
    · simp [scanPatterns, hp, ih]

lemma mem_keys_scanPatterns (plan : Plan) (pats : List (String → Bool))
    (name x : String) (kind : ParallelKind)
    (hx : x ∈ (scanPatterns plan pats name kind).map Prod.fst) :
    (x = name ∧ matchesAny pats name = true) ∨ x ∈ plan.map Prod.fst := by
  induction pats with
  | nil => exact Or.inr hx
  | cons p ps ih =>
    by_cases hp : p name
    · simp only [scanPatterns, hp, if_true] at hx
      rcases mem_keys_dictSet _ _ _ _ hx with h | h
      · exact Or.inl ⟨h, by simp [matchesAny, hp]⟩
      · exact Or.inr h
    · simp only [scanPatterns, hp, Bool.false_eq_true, if_false] at hx
      rcases ih hx with ⟨h1, h2⟩ | h
      · exact Or.inl ⟨h1, by simp [matchesAny] at h2 ⊢; exact Or.inr h2⟩
      · exact Or.inr h

lemma generateLayerPlanStep_get_self (u : Bool)
    (c r : List (String → Bool)) (plan : Plan) (name : String) (kind : ModuleKind) :
    dictGet (generateLayerPlanStep u c r plan name kind) name
      = match classifyStep? u c r name kind with
        | some v => some v
        | none => dictGet plan name := by
  unfold generateLayerPlanStep classifyStep?
  by_cases h1 : u && isNormOrDropout kind
  · simp [h1, dictGet_dictSet_self]
  · by_cases h2 : kind = ModuleKind.linear
    · subst h2
      simp only [show isNormOrDropout ModuleKind.linear = false from rfl,
        Bool.and_false, Bool.false_eq_true, if_false, if_true]
      rw [scanPatterns_get_self]
      by_cases hr : matchesAny r name
      · simp [hr]
      · simp only [hr, Bool.false_eq_true, if_false]
        rw [scanPatterns_get_self]
        by_cases hc : matchesAny c name <;> simp [hc]
    · simp [h1, h2]

lemma generateLayerPlanStep_get_other (u : Bool)
    (c r : List (String → Bool)) (plan : Plan) (name x : String) (kind : ModuleKind)
    (hx : x ≠ name) :
    dictGet (generateLayerPlanStep u c r plan name kind) x = dictGet plan x := by
  unfold generateLayerPlanStep
  by_cases h1 : u && isNormOrDropout kind
  · simp [h1, dictGet_dictSet_other _ _ _ _ hx]
  · by_cases h2 : kind = ModuleKind.linear
    · subst h2
      simp only [show isNormOrDropout ModuleKind.linear = false from rfl,
        Bool.and_false, Bool.false_eq_true, if_false, if_true]
      rw [scanPatterns_get_other _ _ _ _ _ hx, scanPatterns_get_other _ _ _ _ _ hx]
    · simp [h1, h2]

lemma mem_keys_generateLayerPlanStep (u : Bool)
    (c r : List (String → Bool)) (plan : Plan) (name x : String) (kind : ModuleKind)
    (hx : x ∈ (generateLayerPlanStep u c r plan name kind).map Prod.fst) :
    (x = name ∧ classifyStep? u c r name kind ≠ none) ∨ x ∈ plan.map Prod.fst := by
  unfold generateLayerPlanStep at hx
  by_cases h1 : u && isNormOrDropout kind
  · simp only [h1, if_true] at hx
    rcases mem_keys_dictSet _ _ _ _ hx with h | h
    · exact Or.inl ⟨h, by simp [classifyStep?, h1]⟩
    · exact Or.inr h
  · by_cases h2 : kind = ModuleKind.linear
    · subst h2
      simp only [show isNormOrDropout ModuleKind.linear = false from rfl,
        Bool.and_false, Bool.false_eq_true, if_false, if_true] at hx
      rcases mem_keys_scanPatterns _ _ _ _ _ hx with ⟨hname, hrow⟩ | h
      · refine Or.inl ⟨hname, ?_⟩
        simp [classifyStep?, show isNormOrDropout ModuleKind.linear = false from rfl,
          hrow]
      · rcases mem_keys_scanPatterns _ _ _ _ _ h with ⟨hname, hcol⟩ | h0
        · refine Or.inl ⟨hname, ?_⟩
          simp only [classifyStep?,
            show isNormOrDropout ModuleKind.linear = false from rfl,
            Bool.and_false, Bool.false_eq_true, if_false, if_true]
          by_cases hrow : matchesAny r name <;> simp [hrow, hcol]
        · exact Or.inr h0
    · simp only [h1, Bool.false_eq_true, if_false, h2, if_false] at hx
      exact Or.inr hx

/-- The `foldl` underlying `generate_layer_plan_gen`, with an arbitrary
initial plan (proof infrastructure for induction). -/
def planFold (u : Bool) (c r : List (String → Bool)) (p₀ : Plan)
    (block : List (String × ModuleKind)) : Plan :=
  block.foldl (fun plan nm => generateLayerPlanStep u c r plan nm.1 nm.2) p₀

lemma generate_layer_plan_gen_eq_planFold (c r : List (String → Bool))
    (block : List (String × ModuleKind)) (u : Bool) :
    generate_layer_plan_gen c r block u = planFold u c r [] block := rfl

lemma planFold_get_not_mem (u : Bool) (c r : List (String → Bool))
    (block : List (String × ModuleKind)) (p₀ : Plan) (x : String)
    (hx : ∀ nk ∈ block, nk.1 ≠ x) :
    dictGet (planFold u c r p₀ block) x = dictGet p₀ x := by
  induction block generalizing p₀ with
  | nil => rfl
  | cons nm bs ih =>
    have h1 : nm.1 ≠ x := hx nm (List.mem_cons_self _ _)
    have h2 : ∀ nk ∈ bs, nk.1 ≠ x := fun nk hnk => hx nk (List.mem_cons_of_mem _ hnk)
    show dictGet (planFold u c r (generateLayerPlanStep u c r p₀ nm.1 nm.2) bs) x = _
    rw [ih _ h2, generateLayerPlanStep_get_other _ _ _ _ _ _ _ (Ne.symm h1)]

lemma planFold_get_unique (u : Bool) (c r : List (String → Bool))
    (block : List (String × ModuleKind)) (p₀ : Plan) (x : String) (k : ModuleKind)
    (hmem : (x, k) ∈ block) (hnd : (block.map Prod.fst).Nodup) :
    dictGet (planFold u c r p₀ block) x
      = match classifyStep? u c r x k with
        | some v => some v
        | none => dictGet p₀ x := by
  induction block generalizing p₀ with
  | nil => exact absurd hmem (List.not_mem_nil _)
  | cons nm bs ih =>
    simp only [List.map_cons, List.nodup_cons] at hnd
    rcases List.mem_cons.mp hmem with heq | hmem2
    · have hx1 : nm.1 = x := by rw [← heq]
      have hk : nm.2 = k := by rw [← heq]
      have h2 : ∀ nk ∈ bs, nk.1 ≠ x := by
        intro nk hnk hc
        exact hnd.1 (hx1 ▸ hc ▸ List.mem_map.mpr ⟨nk, hnk, rfl⟩)
      show dictGet (planFold u c r (generateLayerPlanStep u c r p₀ nm.1 nm.2) bs) x = _
      rw [planFold_get_not_mem _ _ _ _ _ _ h2, hx1, hk,
        generateLayerPlanStep_get_self]
    · have hx1 : nm.1 ≠ x := by
        intro hc
        exact hnd.1 (hc ▸ List.mem_map.mpr ⟨(x, k), hmem2, rfl⟩)
      show dictGet (planFold u c r (generateLayerPlanStep u c r p₀ nm.1 nm.2) bs) x = _
      rw [ih _ hmem2 hnd.2, generateLayerPlanStep_get_other _ _ _ _ _ _ _ (Ne.symm hx1)]

lemma mem_keys_planFold (u : Bool) (c r : List (String → Bool))
    (block : List (String × ModuleKind)) (p₀ : Plan) (x : String)
    (hx : x ∈ (planFold u c r p₀ block).map Prod.fst) :
    x ∈ p₀.map Prod.fst ∨
      ∃ k, (x, k) ∈ block ∧ classifyStep? u c r x k ≠ none := by
  induction block generalizing p₀ with
  | nil => exact Or.inl hx
  | cons nm bs ih =>
    rcases ih (generateLayerPlanStep u c r p₀ nm.1 nm.2) hx with h | ⟨k, hk1, hk2⟩
    · rcases mem_keys_generateLayerPlanStep _ _ _ _ _ _ _ h with ⟨h1, h2⟩ | h0
      · exact Or.inr ⟨nm.2, by rw [h1]; exact List.mem_cons_self _ _, h1 ▸ h2⟩
      · exact Or.inl h0
    · exact Or.inr ⟨k, List.mem_cons_of_mem _ hk1, hk2⟩

lemma classifyStep?_ne_none_no_seqpar (c r : List (String → Bool))
    (x : String) (k : ModuleKind) (h : classifyStep? false c r x k ≠ none) :
    matchesAny c x = true ∨ matchesAny r x = true := by
  unfold classifyStep? at h
  simp only [Bool.false_and, Bool.false_eq_true, if_false] at h
  by_cases h2 : k = ModuleKind.linear
  · subst h2
    simp only [if_true] at h
    by_cases hr : matchesAny r x
    · exact Or.inr hr
    · by_cases hc : matchesAny c x
      · exact Or.inl hc
      · simp [hr, hc] at h
  · simp [h2] at h

/-- C2: on a layer whose (uniquely named) linear sub-modules include
`attn.in_proj.query`, `attn.dense`, `ff_sub_layer.w1` and `ff_sub_layer.w2`,
`generate_layer_plan` with sequence parallelism off maps `attn.in_proj.query`
to column-sharded, `attn.dense` to row-sharded, `ff_sub_layer.w1` to
column-sharded and `ff_sub_layer.w2` to row-sharded, and the plan contains no
entry whose name matches neither the column-wise nor the row-wise pattern
set. -/
theorem generate_layer_plan_standard_linears
    (block : List (String × ModuleKind))
    (hnd : (block.map Prod.fst).Nodup)
    (hq : ("attn.in_proj.query", ModuleKind.linear) ∈ block)
    (hd : ("attn.dense", ModuleKind.linear) ∈ block)
    (h1 : ("ff_sub_layer.w1", ModuleKind.linear) ∈ block)
    (h2 : ("ff_sub_layer.w2", ModuleKind.linear) ∈ block) :
    dictGet (generate_layer_plan block false) "attn.in_proj.query"
        = some ParallelKind.colwise ∧
    dictGet (generate_layer_plan block false) "attn.dense"
        = some ParallelKind.rowwise ∧
    dictGet (generate_layer_plan block false) "ff_sub_layer.w1"
        = some ParallelKind.colwise ∧
    dictGet (generate_layer_plan block false) "ff_sub_layer.w2"
        = some ParallelKind.rowwise ∧
    ∀ e ∈ generate_layer_plan block false,
      matchesAny colwise_patterns e.1 = true ∨ matchesAny rowwise_patterns e.1 = true := by
  unfold generate_layer_plan
  rw [generate_layer_plan_gen_eq_planFold]
  refine ⟨?_, ?_, ?_, ?_, ?_⟩
  · rw [planFold_get_unique false colwise_patterns rowwise_patterns block [] _ _ hq hnd]
    decide
  · rw [planFold_get_unique false colwise_patterns rowwise_patterns block [] _ _ hd hnd]
    decide
  · rw [planFold_get_unique false colwise_patterns rowwise_patterns block [] _ _ h1 hnd]
    decide
  · rw [planFold_get_unique false colwise_patterns rowwise_patterns block [] _ _ h2 hnd]
    decide
  · intro e he
    have hkey : e.1 ∈ (planFold false colwise_patterns rowwise_patterns [] block).map Prod.fst :=
      List.mem_map.mpr ⟨e, he, rfl⟩
    rcases mem_keys_planFold _ _ _ _ _ _ hkey with h0 | ⟨k, _, hk⟩
    · exact absurd h0 (List.not_mem_nil _)
    · exact classifyStep?_ne_none_no_seqpar _ _ _ _ hk

/-- C2 witness: a concrete five-module layer evaluated through the
classifier. -/
theorem generate_layer_plan_standard_linears_witness :
    dictGet (generate_layer_plan
      [("attn.in_proj.query", ModuleKind.linear), ("attn.dense", ModuleKind.linear),
       ("ff_sub_layer.w1", ModuleKind.linear), ("ff_sub_layer.w2", ModuleKind.linear),
       ("norm", ModuleKind.layerNorm)] false) "attn.in_proj.query"
        = some ParallelKind.colwise ∧
    dictGet (generate_layer_plan
      [("attn.in_proj.query", ModuleKind.linear), ("attn.dense", ModuleKind.linear),
       ("ff_sub_layer.w1", ModuleKind.linear), ("ff_sub_layer.w2", ModuleKind.linear),
       ("norm", ModuleKind.layerNorm)] false) "attn.dense"
        = some ParallelKind.rowwise ∧
    dictGet (generate_layer_plan
      [("attn.in_proj.query", ModuleKind.linear), ("attn.dense", ModuleKind.linear),
       ("ff_sub_layer.w1", ModuleKind.linear), ("ff_sub_layer.w2", ModuleKind.linear),
       ("norm", ModuleKind.layerNorm)] false) "ff_sub_layer.w1"
        = some ParallelKind.colwise ∧
    dictGet (generate_layer_plan
      [("attn.in_proj.query", ModuleKind.linear), ("attn.dense", ModuleKind.linear),
       ("ff_sub_layer.w1", ModuleKind.linear), ("ff_sub_layer.w2", ModuleKind.linear),
       ("norm", ModuleKind.layerNorm)] false) "ff_sub_layer.w2"
        = some ParallelKind.rowwise ∧
    ∀ e ∈ generate_layer_plan
      [("attn.in_proj.query", ModuleKind.linear), ("attn.dense", ModuleKind.linear),
       ("ff_sub_layer.w1", ModuleKind.linear), ("ff_sub_layer.w2", ModuleKind.linear),
       ("norm", ModuleKind.layerNorm)] false,
      matchesAny colwise_patterns e.1 = true ∨ matchesAny rowwise_patterns e.1 = true :=
  generate_layer_plan_standard_linears _ (by decide) (by decide) (by decide)
    (by decide) (by decide)

/-- C9: with sequence parallelism enabled, every (uniquely named)
normalization or dropout-like sub-module is marked sequence-parallel in the
plan, regardless of its name — in particular the column/row pattern checks are
never applied to it. -/
theorem generate_layer_plan_seq_parallel_norms
    (block : List (String × ModuleKind))
    (hnd : (block.map Prod.fst).Nodup)
    (name : String) (kind : ModuleKind)
    (hmem : (name, kind) ∈ block)
    (hk : isNormOrDropout kind = true) :
    dictGet (generate_layer_plan block true) name = some ParallelKind.seqParallel := by
  unfold generate_layer_plan
  rw [generate_layer_plan_gen_eq_planFold,
    planFold_get_unique true colwise_patterns rowwise_patterns block [] _ _ hmem hnd]
  simp [classifyStep?, hk]

/-- C9 witness: a layer-norm whose name matches a column-wise pattern is still
marked sequence-parallel when sequence parallelism is on. -/
theorem generate_layer_plan_seq_parallel_norms_witness :
    dictGet (generate_layer_plan [("ff_sub_layer.w1", ModuleKind.layerNorm)] true)
      "ff_sub_layer.w1" = some ParallelKind.seqParallel :=
  generate_layer_plan_seq_parallel_norms _ (by decide) "ff_sub_layer.w1"
    ModuleKind.layerNorm (by decide) (by decide)

/-- C10: inside one classifier iteration on a linear sub-module, the
column-wise scan runs first and records a column-sharded entry, and the
row-wise scan runs after it and overwrites that entry, so a name matching both
pattern sets ends up row-sharded. -/
theorem linear_step_row_overwrites_col
    (colPats rowPats : List (String → Bool)) (plan : Plan) (name : String)
    (hc : matchesAny colPats name = true) (hr : matchesAny rowPats name = true) :
    dictGet (scanPatterns plan colPats name ParallelKind.colwise) name
        = some ParallelKind.colwise ∧
    dictGet (generateLayerPlanStep false colPats rowPats plan name ModuleKind.linear) name
        = some ParallelKind.rowwise := by
  constructor
  · rw [scanPatterns_get_self, hc, if_pos rfl]
  · rw [generateLayerPlanStep_get_self]
    simp [classifyStep?, hr]

/-- C10 witness: a pattern list overlap evaluated on a concrete name. -/
theorem linear_step_row_overwrites_col_witness :
    dictGet (scanPatterns [] [fullmatch_w1] "ff_sub_layer.w1" ParallelKind.colwise)
        "ff_sub_layer.w1" = some ParallelKind.colwise ∧
    dictGet (generateLayerPlanStep false [fullmatch_w1] [fullmatch_w1] []
        "ff_sub_layer.w1" ModuleKind.linear) "ff_sub_layer.w1"
        = some ParallelKind.rowwise :=
  linear_step_row_overwrites_col [fullmatch_w1] [fullmatch_w1] [] "ff_sub_layer.w1"
    (by decide) (by decide)

/-- A Python value passed to a module call: either a `torch.Tensor` (carrying
the device it lives on and its data) or any non-tensor value. -/
inductive PyVal where
  | tensor (device : Nat) (payload : Nat)
  | other (payload : Nat)
deriving DecidableEq, Repr

/-- `isinstance(arg, torch.Tensor)`. -/
def isTensor : PyVal → Bool
  | .tensor _ _ => true
  | .other _ => false

/-- `Tensor.to(device)`: relocation changes only the device, not the data
(only ever called on tensors in the source; identity elsewhere). -/
def tensorTo : PyVal → Nat → PyVal
  | .tensor _ p, d => .tensor d p
  | v, _ => v

/-- `DeviceMover.forward(self, *args, **kwargs)`: rebuild the positional
arguments, moving each tensor to `self.device`; rebuild the keyword arguments
likewise; call the wrapped module on them and return its result as-is. The
wrapped module is abstracted as a function from (args, kwargs) to a value. -/
def DeviceMover.forward (module : List PyVal → List (String × PyVal) → PyVal)
    (device : Nat) (args : List PyVal) (kwargs : List (String × PyVal)) : PyVal :=
  let args2 := args.map (fun arg => if isTensor arg then tensorTo arg device else arg)
  let kwargs2 := kwargs.map
    (fun kv => (kv.1, if isTensor kv.2 then tensorTo kv.2 device else kv.2))
  module args2 kwargs2

/-- C3: `DeviceMover.forward` forwards to the wrapped module exactly the input
arguments with every tensor relocated to the target device — positionally and
by keyword, non-tensor values passed through unchanged, keyword names
preserved — and returns the wrapped module's output unmodified. -/
theorem deviceMover_forward_moves_inputs_only
    (module : List PyVal → List (String × PyVal) → PyVal) (device : Nat)
    (args : List PyVal) (kwargs : List (String × PyVal)) :
    ∃ args2 kwargs2,
      DeviceMover.forward module device args kwargs = module args2 kwargs2 ∧
      args2.length = args.length ∧
      kwargs2.length = kwargs.length ∧
      (∀ i (hi : i < args.length) (hi2 : i < args2.length),
        (isTensor (args.get ⟨i, hi⟩) = false →
          args2.get ⟨i, hi2⟩ = args.get ⟨i, hi⟩) ∧
        (∀ d p, args.get ⟨i, hi⟩ = PyVal.tensor d p →
          args2.get ⟨i, hi2⟩ = PyVal.tensor device p)) ∧
      (∀ i (hi : i < kwargs.length) (hi2 : i < kwargs2.length),
        (kwargs2.get ⟨i, hi2⟩).1 = (kwargs.get ⟨i, hi⟩).1 ∧
        (isTensor (kwargs.get ⟨i, hi⟩).2 = false →
          (kwargs2.get ⟨i, hi2⟩).2 = (kwargs.get ⟨i, hi⟩).2) ∧
        (∀ d p, (kwargs.get ⟨i, hi⟩).2 = PyVal.tensor d p →
          (kwargs2.get ⟨i, hi2⟩).2 = PyVal.tensor device p)) := by
  refine ⟨args.map (fun arg => if isTensor arg then tensorTo arg device else arg),
    kwargs.map (fun kv : String × PyVal =>
      (kv.1, if isTensor kv.2 then tensorTo kv.2 device else kv.2)),
    rfl, by simp, by simp, ?_, ?_⟩
  · intro i hi hi2
    constructor
    · intro ht
      simp only [List.get_eq_getElem] at ht
      simp [List.get_eq_getElem, List.getElem_map, ht]
    · intro d p hv
      simp only [List.get_eq_getElem] at hv
      simp [List.get_eq_getElem, List.getElem_map, hv, isTensor, tensorTo]
  · intro i hi hi2
    refine ⟨?_, ?_, ?_⟩
    · simp
    · intro ht
      simp only [List.get_eq_getElem] at ht
      simp [List.get_eq_getElem, List.getElem_map, ht]
    · intro d p hv
      simp only [List.get_eq_getElem] at hv
      simp [List.get_eq_getElem, List.getElem_map, hv, isTensor, tensorTo]

/-- C3 witness: the theorem applied at a concrete mixed invocation. -/
theorem deviceMover_forward_moves_inputs_only_witness :
    ∃ (args2 : List PyVal) (kwargs2 : List (String × PyVal)),
      DeviceMover.forward
          (fun (a : List PyVal) (k : List (String × PyVal)) =>
            PyVal.other (a.length + k.length)) 3
          [PyVal.tensor 0 7, PyVal.other 5] [("x", PyVal.tensor 1 9)]
        = (fun (a : List PyVal) (k : List (String × PyVal)) =>
            PyVal.other (a.length + k.length)) args2 kwargs2 ∧
      args2.length = 2 ∧
      kwargs2.length = 1 ∧
      (∀ i (hi : i < ([PyVal.tensor 0 7, PyVal.other 5] : List PyVal).length)
          (hi2 : i < args2.length),
        (isTensor (([PyVal.tensor 0 7, PyVal.other 5] : List PyVal).get ⟨i, hi⟩) = false →
          args2.get ⟨i, hi2⟩ = ([PyVal.tensor 0 7, PyVal.other 5] : List PyVal).get ⟨i, hi⟩) ∧
        (∀ d p, ([PyVal.tensor 0 7, PyVal.other 5] : List PyVal).get ⟨i, hi⟩ = PyVal.tensor d p →
          args2.get ⟨i, hi2⟩ = PyVal.tensor 3 p)) ∧
      (∀ i (hi : i < ([("x", PyVal.tensor 1 9)] : List (String × PyVal)).length)
          (hi2 : i < kwargs2.length),
        (kwargs2.get ⟨i, hi2⟩).1 = (([("x", PyVal.tensor 1 9)] : List (String × PyVal)).get ⟨i, hi⟩).1 ∧
        (isTensor (([("x", PyVal.tensor 1 9)] : List (String × PyVal)).get ⟨i, hi⟩).2 = false →
          (kwargs2.get ⟨i, hi2⟩).2 = (([("x", PyVal.tensor 1 9)] : List (String × PyVal)).get ⟨i, hi⟩).2) ∧
        (∀ d p, (([("x", PyVal.tensor 1 9)] : List (String × PyVal)).get ⟨i, hi⟩).2 = PyVal.tensor d p →
          (kwargs2.get ⟨i, hi2⟩).2 = PyVal.tensor 3 p)) :=
  deviceMover_forward_moves_inputs_only
    (fun (a : List PyVal) (k : List (String × PyVal)) =>
      PyVal.other (a.length + k.length)) 3
    [PyVal.tensor 0 7, PyVal.other 5] [("x", PyVal.tensor 1 9)]

/-- An abstract torch module instance: its runtime type name (what
`type(module).__name__` returns) plus an identity payload distinguishing
instances. -/
structure PyModule where
  typeName : String
  payload : Nat
deriving DecidableEq, Repr

/-- The import-time parse of `DISTRIBUTED_STRATEGY_IGNORE_MODULES`: split on
commas when set, empty list otherwise. -/
def ignore_modules_of_env : Option String → List String
  | some s => s.splitOn ","
  | none => []

/-- A concrete strategy, i.e. the pair of overridable placement algorithms
(`_distribute_module`, `_distribute_layer`) together with `from_meta`. -/
structure Strategy where
  from_meta : Bool
  distributeModuleImpl : PyModule → Bool → Option String → PyModule
  distributeLayerImpl : PyModule → Nat → Option String → PyModule

/-- `DistributedStrategy.__should_distribute`: true iff the type name is not
in the process-wide ignore list. -/
def should_distribute (ignore : List String) (module_name : String) : Bool :=
  decide (module_name ∉ ignore)

/-- `DistributedStrategy.distribute_module`: gate on the module's type name,
then delegate to the strategy-specific algorithm (the skip branch only prints
a notice and returns the module). -/
def distribute_module (ignore : List String) (s : Strategy) (module : PyModule)
    (final_layers : Bool) (model : Option String) : PyModule :=
  if should_distribute ignore module.typeName then
    s.distributeModuleImpl module final_layers model
  else
    module

/-- `DistributedStrategy.distribute_layer`: same gate, keyed on the block's
type name and numeric layer index. -/
def distribute_layer (ignore : List String) (s : Strategy) (block : PyModule)
    (layer : Nat) (model : Option String) : PyModule :=
  if should_distribute ignore block.typeName then
    s.distributeLayerImpl block layer model
  else
    block

/-- C4: for every strategy (i.e. every pair of placement algorithms), a module
or layer whose type name is in the ignore list is returned as the exact same
instance, so the strategy-specific algorithm is never consulted. -/
theorem distribute_ignored_returns_input
    (ignore : List String) (s : Strategy) (m : PyModule)
    (final_layers : Bool) (layer : Nat) (model : Option String)
    (h : m.typeName ∈ ignore) :
    distribute_module ignore s m final_layers model = m ∧
    distribute_layer ignore s m layer model = m := by
  unfold distribute_module distribute_layer should_distribute
  simp [h]

/-- C4 witness: a strategy whose algorithms visibly rewrite the module still
returns an ignored instance unchanged. -/
theorem distribute_ignored_returns_input_witness :
    distribute_module ["Foo", "Bar"]
      ⟨false, fun m _ _ => ⟨m.typeName, m.payload + 1⟩,
        fun m _ _ => ⟨m.typeName, m.payload + 1⟩⟩
      ⟨"Foo", 0⟩ true (some "llama") = ⟨"Foo", 0⟩ ∧
    distribute_layer ["Foo", "Bar"]
      ⟨false, fun m _ _ => ⟨m.typeName, m.payload + 1⟩,
        fun m _ _ => ⟨m.typeName, m.payload + 1⟩⟩
      ⟨"Foo", 0⟩ 4 (some "llama") = ⟨"Foo", 0⟩ :=
  distribute_ignored_returns_input ["Foo", "Bar"] _ ⟨"Foo", 0⟩ true 4 (some "llama")
    (by decide)

/-- The inner `for i in range(layers_per_dev)` loop of
`UniformModelParallelStrategy.__init__`: writes `dev` into `n` consecutive
entries starting at `layer_id`, returning the updated table and the advanced
`layer_id`. -/
def assignBlock (lst : List Nat) (layer_id : Nat) (dev : Nat) : Nat → List Nat × Nat
  | 0 => (lst, layer_id)
  | n + 1 => assignBlock (lst.set layer_id dev) (layer_id + 1) dev n

/-- The outer `for dev_idx in range(len(devices))` loop of
`UniformModelParallelStrategy.__init__`, iterating the devices in list order:
each device gets `layers_per_dev` consecutive entries, plus one extra while
`remainder > 0`. State is `(layer_to_device, layer_id, remainder)`. -/
def uniformLoop (layers_per_dev : Nat) :
    List Nat → List Nat → Nat → Nat → List Nat × Nat × Nat
  | [], lst, layer_id, remainder => (lst, layer_id, remainder)
  | dev :: rest, lst, layer_id, remainder =>
    let s := assignBlock lst layer_id dev layers_per_dev
    if remainder > 0 then
      uniformLoop layers_per_dev rest (s.1.set s.2 dev) (s.2 + 1) (remainder - 1)
    else
      uniformLoop layers_per_dev rest s.1 s.2 remainder

/-- `UniformModelParallelStrategy.__init__`: `layers_per_dev = num_layers //
num_dev`, `remainder = num_layers - layers_per_dev * num_dev`, table
initialized to `[0] * num_layers`, then filled by the device loop. -/
def layer_to_device (devices : List Nat) (num_layers : Nat) : List Nat :=
  let num_dev := devices.length
  let layers_per_dev := num_layers / num_dev
  let remainder := num_layers - layers_per_dev * num_dev
  (uniformLoop layers_per_dev devices (List.replicate num_layers 0) 0 remainder).1

/-- The closed form the claim states for the table: contiguous device-ordered
blocks, the first `rem` devices in list order getting `base + 1` entries and
the rest `base`. -/
def specBlocks (base : Nat) : Nat → List Nat → List Nat
  | _, [] => []
  | rem, d :: rest =>
    List.replicate (base + if 0 < rem then 1 else 0) d ++ specBlocks base (rem - 1) rest

lemma set_append_len (pre : List Nat) (x d : Nat) (ys : List Nat) :
    (pre ++ x :: ys).set pre.length d = pre ++ d :: ys := by
  rw [List.set_append_right _ _ (le_refl _), Nat.sub_self, List.set_cons_zero]

lemma assignBlock_spec (d : Nat) :
    ∀ (n : Nat) (pre : List Nat) (pad : Nat), n ≤ pad →
      assignBlock (pre ++ List.replicate pad 0) pre.length d n
        = (pre ++ List.replicate n d ++ List.replicate (pad - n) 0, pre.length + n) := by
  intro n
  induction n with
  | zero => intro pre pad h; simp [assignBlock]
  | succ n ih =>
    intro pre pad h
    rcases pad with _ | p
    · omega
    rw [List.replicate_succ]
    show assignBlock ((pre ++ 0 :: List.replicate p 0).set pre.length d)
        (pre.length + 1) d n = _
    rw [set_append_len]
    have hlen : pre.length + 1 = (pre ++ [d]).length := by simp
    have hsplit : pre ++ d :: List.replicate p 0 = (pre ++ [d]) ++ List.replicate p 0 := by
      simp
    rw [hsplit, hlen, ih (pre ++ [d]) p (by omega)]
    have h2 : p + 1 - (n + 1) = p - n := by omega
    rw [h2]
    refine Prod.ext ?_ ?_
    · simp [List.append_assoc, List.replicate_succ]
    · simp
      omega

lemma uniformLoop_cons (lpd dev : Nat) (rest lst : List Nat) (layer_id rem : Nat) :
    uniformLoop lpd (dev :: rest) lst layer_id rem
      = if 0 < rem then
          uniformLoop lpd rest
            ((assignBlock lst layer_id dev lpd).1.set
              (assignBlock lst layer_id dev lpd).2 dev)
            ((assignBlock lst layer_id dev lpd).2 + 1) (rem - 1)
        else
          uniformLoop lpd rest (assignBlock lst layer_id dev lpd).1
            (assignBlock lst layer_id dev lpd).2 rem := rfl

lemma uniformLoop_spec (base : Nat) :
    ∀ (devs : List Nat) (pre : List Nat) (rem : Nat), rem ≤ devs.length →
      uniformLoop base devs (pre ++ List.replicate (devs.length * base + rem) 0)
          pre.length rem
        = (pre ++ specBlocks base rem devs,
           pre.length + (devs.length * base + rem), 0) := by
  intro devs
  induction devs with
  | nil =>
    intro pre rem h
    simp only [List.length_nil, Nat.le_zero] at h
    subst h
    simp [uniformLoop, specBlocks]
  | cons d rest ih =>
    intro pre rem h
    have hbase : base ≤ (d :: rest).length * base + rem := by
      rw [List.length_cons, add_mul, one_mul]
      omega
    have hpad : (d :: rest).length * base + rem - base = rest.length * base + rem := by
      rw [List.length_cons, add_mul, one_mul]
      omega
    rw [uniformLoop_cons, assignBlock_spec d base pre _ hbase]
    dsimp only
    rcases Nat.eq_zero_or_pos rem with h0 | h0
    · subst h0
      rw [if_neg (by omega), hpad,
        show pre.length + base = (pre ++ List.replicate base d).length by simp,
        ih (pre ++ List.replicate base d) 0 (by omega)]
      refine Prod.ext ?_ (Prod.ext ?_ rfl)
      · show (pre ++ List.replicate base d) ++ specBlocks base 0 rest
          = pre ++ specBlocks base 0 (d :: rest)
        rw [show specBlocks base 0 (d :: rest)
          = List.replicate (base + if 0 < 0 then 1 else 0) d ++ specBlocks base (0 - 1) rest
          from rfl]
        simp [List.append_assoc]
      · show (pre ++ List.replicate base d).length + (rest.length * base + 0)
          = pre.length + ((d :: rest).length * base + 0)
        simp only [List.length_append, List.length_replicate, List.length_cons,
          add_mul, one_mul]
        omega
    · rw [if_pos h0]
      obtain ⟨r, rfl⟩ : ∃ r, rem = r + 1 := ⟨rem - 1, by omega⟩
      have e1 : (d :: rest).length * base + (r + 1) - base
          = rest.length * base + r + 1 := by
        rw [List.length_cons, add_mul, one_mul]
        omega
      have hset : (pre ++ List.replicate base d ++ List.replicate
            ((d :: rest).length * base + (r + 1) - base) 0).set (pre.length + base) d
          = (pre ++ List.replicate (base + 1) d)
            ++ List.replicate (rest.length * base + r) 0 := by
        rw [e1,
          show List.replicate (rest.length * base + r + 1) (0 : Nat)
            = 0 :: List.replicate (rest.length * base + r) 0 from List.replicate_succ _ _,
          show pre.length + base = (pre ++ List.replicate base d).length by simp,
          set_append_len,
          show List.replicate (base + 1) d = List.replicate base d ++ [d] from
            List.replicate_succ' _ _]
        simp [List.append_assoc]
      rw [hset,
        show pre.length + base + 1 = (pre ++ List.replicate (base + 1) d).length by
          rw [List.length_append, List.length_replicate]; omega,
        show r + 1 - 1 = r from rfl,
        ih (pre ++ List.replicate (base + 1) d) r (by
          rw [List.length_cons] at h; omega)]
      refine Prod.ext ?_ (Prod.ext ?_ rfl)
      · show (pre ++ List.replicate (base + 1) d) ++ specBlocks base r rest
          = pre ++ specBlocks base (r + 1) (d :: rest)
        rw [show specBlocks base (r + 1) (d :: rest)
          = List.replicate (base + if 0 < r + 1 then 1 else 0) d
            ++ specBlocks base (r + 1 - 1) rest from rfl]
        simp [List.append_assoc]
      · show (pre ++ List.replicate (base + 1) d).length + (rest.length * base + r)
          = pre.length + ((d :: rest).length * base + (r + 1))
        simp only [List.length_append, List.length_replicate, List.length_cons,
          add_mul, one_mul]
        omega

/-- The table equals the claim's closed form: contiguous device-ordered
blocks with the remainder layers on the earliest devices. -/
lemma layer_to_device_closed (devices : List Nat) (L : Nat)
    (hD : 1 ≤ devices.length) :
    layer_to_device devices L
      = specBlocks (L / devices.length) (L % devices.length) devices := by
  have hmod : L % devices.length < devices.length := Nat.mod_lt _ (by omega)
  have hdm := Nat.div_add_mod L devices.length
  have hrem : L - L / devices.length * devices.length = L % devices.length := by
    rw [Nat.mul_comm]
    omega
  have hrepl : List.replicate L (0 : Nat)
      = List.replicate (devices.length * (L / devices.length) + L % devices.length) 0 := by
    congr 1
    omega
  show (uniformLoop (L / devices.length) devices (List.replicate L 0) 0
      (L - L / devices.length * devices.length)).1 = _
  rw [hrem, hrepl]
  have h2 := uniformLoop_spec (L / devices.length) devices [] (L % devices.length)
    (le_of_lt hmod)
  simp only [List.nil_append, List.length_nil] at h2
  rw [h2]

lemma specBlocks_length (base : Nat) :
    ∀ (devs : List Nat) (rem : Nat), rem ≤ devs.length →
      (specBlocks base rem devs).length = devs.length * base + rem := by
  intro devs
  induction devs with
  | nil =>
    intro rem h
    simp only [List.length_nil, Nat.le_zero] at h
    subst h
    simp [specBlocks]
  | cons d rest ih =>
    intro rem h
    show (List.replicate (base + if 0 < rem then 1 else 0) d
      ++ specBlocks base (rem - 1) rest).length = _
    rw [List.length_append, List.length_replicate, ih (rem - 1) (by
      rw [List.length_cons] at h; omega),
      List.length_cons, add_mul, one_mul]
    rcases Nat.eq_zero_or_pos rem with h0 | h0
    · subst h0
      rw [if_neg (by omega)]
      omega
    · rw [if_pos h0]
      omega

lemma mem_specBlocks (base : Nat) :
    ∀ (devs : List Nat) (rem : Nat) (x : Nat),
      x ∈ specBlocks base rem devs → x ∈ devs := by
  intro devs
  induction devs with
  | nil => intro rem x hx; simpa [specBlocks] using hx
  | cons d rest ih =>
    intro rem x hx
    rcases List.mem_append.mp hx with hx | hx
    · rcases List.eq_of_mem_replicate hx with rfl
      exact List.mem_cons_self _ _
    · exact List.mem_cons_of_mem _ (ih _ _ hx)

lemma count_specBlocks (base : Nat) :
    ∀ (devs : List Nat) (rem : Nat) (i : Nat) (hi : i < devs.length),
      devs.Nodup →
      (specBlocks base rem devs).count (devs.get ⟨i, hi⟩)
        = base + if i < rem then 1 else 0 := by
  intro devs
  induction devs with
  | nil =>
    intro rem i hi
    exact fun _ => absurd hi (by simp)
  | cons d rest ih =>
    intro rem i hi hnd
    rcases List.nodup_cons.mp hnd with ⟨hd, hnd2⟩
    rcases i with _ | j
    · show (List.replicate (base + if 0 < rem then 1 else 0) d
        ++ specBlocks base (rem - 1) rest).count d = _
      rw [List.count_append, List.count_replicate,
        List.count_eq_zero.mpr (fun hmem => hd (mem_specBlocks _ _ _ _ hmem))]
      simp
    · have hj : j < rest.length := by simpa [List.length_cons] using hi
      show (List.replicate (base + if 0 < rem then 1 else 0) d
        ++ specBlocks base (rem - 1) rest).count (rest.get ⟨j, hj⟩) = _
      have hne : rest.get ⟨j, hj⟩ ≠ d := by
        intro hc
        exact hd (hc ▸ List.get_mem rest j hj)
      rw [List.count_append, List.count_replicate, ih (rem - 1) j hj hnd2,
        show (d == rest.get ⟨j, hj⟩) = false from beq_eq_false_iff_ne.mpr (Ne.symm hne)]
      simp only [Bool.false_eq_true, if_false, Nat.zero_add]
      rcases Nat.lt_or_ge (j + 1) rem with h0 | h0
      · rw [if_pos (by omega), if_pos (by omega)]
      · rw [if_neg (by omega), if_neg (by omega)]

/-- C1: for a device list of length at least one and any layer count `L`, the
constructor of the uniform model-parallel strategy builds a `layer_to_device`
table of exactly `L` entries drawn from the device list, equal to the
contiguous device-ordered block assignment in which the first `L mod D`
devices get `y(L/D) + 1` layers and the rest get `L/D`, so (for distinct
devices) any two assignment counts differ by at most one. -/
theorem uniform_mapper_init_correct (devices : List Nat) (L : Nat)
    (hD : 1 ≤ devices.length) :
    (layer_to_device devices L).length = L ∧
    (∀ d ∈ layer_to_device devices L, d ∈ devices) ∧
    layer_to_device devices L
      = specBlocks (L / devices.length) (L % devices.length) devices ∧
    (devices.Nodup → ∀ i (hi : i < devices.length),
      (layer_to_device devices L).count (devices.get ⟨i, hi⟩)
        = L / devices.length + if i < L % devices.length then 1 else 0) ∧
    (devices.Nodup → ∀ i j (hi : i < devices.length) (hj : j < devices.length),
      (layer_to_device devices L).count (devices.get ⟨i, hi⟩)
        ≤ (layer_to_device devices L).count (devices.get ⟨j, hj⟩) + 1) := by
  have hmod : L % devices.length < devices.length := Nat.mod_lt _ (by omega)
  have hdm := Nat.div_add_mod L devices.length
  have hclosed := layer_to_device_closed devices L hD
  refine ⟨?_, ?_, hclosed, ?_, ?_⟩
  · rw [hclosed, specBlocks_length _ _ _ (le_of_lt hmod)]
    omega
  · intro d hd
    rw [hclosed] at hd
    exact mem_specBlocks _ _ _ _ hd
  · intro hnd i hi
    rw [hclosed]
    exact count_specBlocks _ _ _ _ hi hnd
  · intro hnd i j hi hj
    rw [hclosed, count_specBlocks _ _ _ _ hi hnd, count_specBlocks _ _ _ _ hj hnd]
    rcases Nat.lt_or_ge i (L % devices.length) with h0 | h0 <;>
      rcases Nat.lt_or_ge j (L % devices.length) with h1 | h1 <;>
        simp [h0, h1, Nat.not_lt_of_ge] <;> omega

/-- C1 witness: the claim's own example, `devices = [0,1,2]`, `L = 8`, giving
counts `[3, 3, 2]` in device order. -/
theorem uniform_mapper_init_correct_witness :
    (layer_to_device [0, 1, 2] 8).length = 8 ∧
    layer_to_device [0, 1, 2] 8 = [0, 0, 0, 1, 1, 1, 2, 2] ∧
    (layer_to_device [0, 1, 2] 8).count 0 = 3 ∧
    (layer_to_device [0, 1, 2] 8).count 1 = 3 ∧
    (layer_to_device [0, 1, 2] 8).count 2 = 2 :=
  ⟨(uniform_mapper_init_correct [0, 1, 2] 8 (by decide)).1,
    by decide, by decide, by decide, by decide⟩

/-- A transformer block as seen by `TensorParallelStrategy._distribute_layer`:
the attention sub-module's `nheads`/`kvheads` (mutated by the code) plus the
`named_modules()` listing fed to the classifier. -/
structure Block where
  nheads : Nat
  kvheads : Nat
  modules : List (String × ModuleKind)
deriving DecidableEq, Repr

/-- The `model` parameter: Python `None` or a string. `not model` holds for
`None` and for the empty string. -/
def pyFalsy : Option String → Bool
  | none => true
  | some s => s == ""

/-- The tensor-parallel strategy's state after construction: `from_meta`, the
resolved process group (`GroupMember.WORLD` modelled as 0), the
`USE_SEQUENCE_PARALLELISM` toggle, the chosen device type and the size of the
one-dimensional device mesh (the world size). -/
structure TensorParallelStrategy where
  from_meta : Bool
  group : Nat
  use_sequence_parallelism : Bool
  device_type : String
  meshSize : Nat
deriving DecidableEq, Repr

/-- Process/environment state visible to `TensorParallelStrategy.__init__`. -/
structure DistEnv where
  dist_is_init : Bool
  use_seq_par_env : Option String
  cuda_available : Bool
  world_size : Nat
deriving DecidableEq, Repr

/-- The construction steps that follow the assert, in source order. -/
inductive InitStep where
  | resolveGroup
  | readSequenceParallelismEnv
  | selectDeviceType
  | readWorldSize
  | initDeviceMesh
deriving DecidableEq, Repr

/-- `TensorParallelStrategy.__init__`: after storing `from_meta`, the assert
on an initialized process group runs first; only then are the group resolved,
the environment toggle read, the device type chosen, the world size read and
the 1-D device mesh built. The returned trace records which of those steps
ran. -/
def TP_init (env : DistEnv) (group : Option Nat) (from_meta : Bool) :
    List InitStep × Except String TensorParallelStrategy :=
  if ¬ env.dist_is_init then
    ([], Except.error "must initialize a process group")
  else
    let g := group.getD 0
    let usp := (env.use_seq_par_env.getD "False").toLower == "true"
    let device_type := if env.cuda_available then "cuda" else "cpu"
    let world := env.world_size
    ([InitStep.resolveGroup, InitStep.readSequenceParallelismEnv,
      InitStep.selectDeviceType, InitStep.readWorldSize, InitStep.initDeviceMesh],
     Except.ok { from_meta := from_meta, group := g, use_sequence_parallelism := usp,
                 device_type := device_type, meshSize := world })

/-- What `TensorParallelStrategy._distribute_layer` produces on success:
either the delegation to the generic `tp_wrapping.apply_tp` collaborator, or
the block (with adjusted head counts) rewritten by `parallelize_module` under
the generated plan. -/
inductive LayerResult where
  | applyTP (block : Block)
  | parallelized (block : Block) (plan : Plan)
deriving DecidableEq, Repr

/-- `TensorParallelStrategy._distribute_layer`: delegate when `model` is
falsy; for `llama`/`granite` build the classifier plan, divide the attention
head counts by the mesh size (Python `//`, no divisibility check), and apply
the plan; otherwise raise `ValueError(f"Unsupported model: {model}")`. -/
def TP_distribute_layer (s : TensorParallelStrategy) (block : Block)
    (layer : Nat) (model : Option String) : Except String LayerResult :=
  if pyFalsy model then
    Except.ok (LayerResult.applyTP block)
  else if model = some "llama" ∨ model = some "granite" then
    let layer_tp_plan := generate_layer_plan block.modules s.use_sequence_parallelism
    let block2 : Block :=
      { block with nheads := block.nheads / s.meshSize,
                   kvheads := block.kvheads / s.meshSize }
    Except.ok (LayerResult.parallelized block2 layer_tp_plan)
  else
    Except.error ("Unsupported model: " ++ model.getD "")

/-- The sharding kinds appearing in the hand-written module plans of
`_distribute_module`. -/
inductive ModulePlanKind where
  | colwiseReplicateOutput
  | rowwiseReplicateInput
deriving DecidableEq, Repr

/-- What `TensorParallelStrategy._distribute_module` produces when it returns
a module: delegation to `tp_wrapping.apply_tp`, or `parallelize_module` under
a hand-written plan. -/
inductive ModuleResult where
  | applyTP (module : PyModule)
  | parallelized (module : PyModule) (plan : List (String × ModulePlanKind))
deriving DecidableEq, Repr

/-- `TensorParallelStrategy._distribute_module`: delegate when `model` is
falsy; hand-written plans for `llama` (head vs embedding chosen by
`final_layers`) and `granite`; any other non-empty tag falls off the end of
the `if`/`elif` chain, implicitly returning `None` without raising. -/
def TP_distribute_module (s : TensorParallelStrategy) (module : PyModule)
    (final_layers : Bool) (model : Option String) :
    Except String (Option ModuleResult) :=
  if pyFalsy model then
    Except.ok (some (ModuleResult.applyTP module))
  else if model = some "llama" then
    if final_layers then
      Except.ok (some (ModuleResult.parallelized module
        [("shared.head", ModulePlanKind.colwiseReplicateOutput)]))
    else
      Except.ok (some (ModuleResult.parallelized module
        [("shared.emb", ModulePlanKind.rowwiseReplicateInput)]))
  else if model = some "granite" then
    Except.ok (some (ModuleResult.parallelized module
      [("head", ModulePlanKind.colwiseReplicateOutput),
       ("base_model.embedding", ModulePlanKind.rowwiseReplicateInput)]))
  else
    Except.ok none

/-- C6: when no distributed process group is initialized, construction fails
with the assert's message and none of the later construction steps (group
resolution, environment read, device-type selection, world-size read,
device-mesh creation) is performed. -/
theorem tp_init_requires_process_group
    (env : DistEnv) (group : Option Nat) (from_meta : Bool)
    (h : env.dist_is_init = false) :
    TP_init env group from_meta
      = ([], Except.error "must initialize a process group") := by
  simp [TP_init, h]

/-- C6 witness: a concrete uninitialized environment. -/
theorem tp_init_requires_process_group_witness :
    TP_init ⟨false, some "True", true, 4⟩ (some 7) true
      = ([], Except.error "must initialize a process group") :=
  tp_init_requires_process_group ⟨false, some "True", true, 4⟩ (some 7) true rfl

/-- C5: `_distribute_layer` on any non-empty model tag other than `llama` and
`granite` raises `ValueError(f"Unsupported model: {model}")` and produces no
result. -/
theorem tp_distribute_layer_unsupported_model
    (s : TensorParallelStrategy) (block : Block) (layer : Nat) (m : String)
    (h1 : m ≠ "") (h2 : m ≠ "llama") (h3 : m ≠ "granite") :
    TP_distribute_layer s block layer (some m)
      = Except.error ("Unsupported model: " ++ m) := by
  simp [TP_distribute_layer, pyFalsy, beq_eq_false_iff_ne.mpr h1, h2, h3]

/-- C5 witness: the tag `gpt`. -/
theorem tp_distribute_layer_unsupported_model_witness :
    TP_distribute_layer ⟨false, 0, false, "cpu", 2⟩ ⟨8, 8, []⟩ 0 (some "gpt")
      = Except.error "Unsupported model: gpt" :=
  tp_distribute_layer_unsupported_model ⟨false, 0, false, "cpu", 2⟩ ⟨8, 8, []⟩ 0 "gpt"
    (by decide) (by decide) (by decide)

/-- C7: for the recognized tags `llama` and `granite`, `_distribute_layer`
succeeds with the block's `nheads` and `kvheads` floor-divided by the mesh
size — for every head count and mesh size, with no divisibility check — and
the mesh size of a constructed strategy is the world size. -/
theorem tp_distribute_layer_divides_heads
    (s : TensorParallelStrategy) (block : Block) (layer : Nat) (m : String)
    (hm : m = "llama" ∨ m = "granite") :
    TP_distribute_layer s block layer (some m)
      = Except.ok (LayerResult.parallelized
          { block with nheads := block.nheads / s.meshSize,
                       kvheads := block.kvheads / s.meshSize }
          (generate_layer_plan block.modules s.use_sequence_parallelism)) ∧
    (∀ (env : DistEnv) (group : Option Nat) (fm : Bool)
        (strat : TensorParallelStrategy),
      (TP_init env group fm).2 = Except.ok strat → strat.meshSize = env.world_size) := by
  constructor
  · rcases hm with rfl | rfl <;> rfl
  · intro env group fm strat hok
    by_cases h : env.dist_is_init
    · simp [TP_init, h] at hok
      rw [← hok]
    · simp [TP_init, h] at hok

/-- C7 witness: `nheads = 7`, `kvheads = 5`, world size 2 — not divisible, yet
placement succeeds with the truncated counts 3 and 2. -/
theorem tp_distribute_layer_divides_heads_witness :
    TP_distribute_layer ⟨false, 0, false, "cpu", 2⟩ ⟨7, 5, []⟩ 0 (some "llama")
      = Except.ok (LayerResult.parallelized ⟨3, 2, []⟩ []) := by
  have h := (tp_distribute_layer_divides_heads ⟨false, 0, false, "cpu", 2⟩ ⟨7, 5, []⟩
    0 "llama" (Or.inl rfl)).1
  simpa [generate_layer_plan, generate_layer_plan_gen] using h

/-- C8: `_distribute_module` on any non-empty model tag other than `llama`
and `granite` raises nothing and returns no module: the `if`/`elif` chain
falls through to Python's implicit `None`. -/
theorem tp_distribute_module_unsupported_falls_through
    (s : TensorParallelStrategy) (module : PyModule) (final_layers : Bool)
    (m : String)
    (h1 : m ≠ "") (h2 : m ≠ "llama") (h3 : m ≠ "granite") :
    TP_distribute_module s module final_layers (some m) = Except.ok none := by
  simp [TP_distribute_module, pyFalsy, beq_eq_false_iff_ne.mpr h1, h2, h3]

/-- C8 witness: the tag `gpt` again, on a concrete module. -/
theorem tp_distribute_module_unsupported_falls_through_witness :
    TP_distribute_module ⟨false, 0, false, "cpu", 2⟩ ⟨"Embedding", 3⟩ true (some "gpt")
      = Except.ok none :=
  tp_distribute_module_unsupported_falls_through ⟨false, 0, false, "cpu", 2⟩
    ⟨"Embedding", 3⟩ true "gpt" (by decide) (by decide) (by decide)

end FMS
